import Mathlib

/-!
Formal model of the honeydiff image-comparison engine.

The engine itself ships as a native binary; the repository contains its
type declarations (index.d.ts), the JavaScript binding layer, the README,
the CHANGELOG and example programs.  The definitions below therefore model
the engine from its specification: each modelled definition carries a doc
comment naming exactly what is missing from the repository sources.
-/

set_option maxHeartbeats 1000000

namespace Honeydiff

/-- An RGBA pixel with channels in 0..255. -/
structure Pixel where
  r : Nat
  g : Nat
  b : Nat
  a : Nat
deriving DecidableEq, Repr

/-- Classification of one colocated pixel pair: identical (within threshold),
different with a severity intensity, or an anti-aliasing artifact. -/
inductive PixelClass where
  | same : PixelClass
  | different : Nat → PixelClass
  | aaArtifact : PixelClass
deriving DecidableEq, Repr

/-- Modelled from the spec: the PixelClassifier (native code, not under src/)
decides same / different / anti-aliasing-artifact per pixel pair using a
CIEDE2000 threshold and a neighbourhood heuristic.  CIEDE2000 and the AA
heuristic are real-valued and tunable per the spec, so the classifier is kept
as a parameter of the pipeline. -/
abbrev Classifier := Pixel → Pixel → PixelClass

/-- A decoded image: dimensions plus a pixel lookup function. -/
structure Image where
  width : Nat
  height : Nat
  pix : Nat → Nat → Pixel

/-- Integer bounding box, minimal enclosing rectangle of a pixel set. -/
structure BoundingBox where
  x : Nat
  y : Nat
  width : Nat
  height : Nat
deriving DecidableEq, Repr

/-- Height mismatch information of a comparison. -/
structure HeightDiff where
  height1 : Nat
  height2 : Nat
  extraPixels : Nat
deriving DecidableEq, Repr

/-- A differing pixel with its position and severity intensity. -/
structure DiffPixel where
  x : Nat
  y : Nat
  intensity : Nat
deriving DecidableEq, Repr

/-- Rational division through `Rat.divInt`; equal to field division (see
`qdiv_eq_div`) and evaluated directly by the kernel. -/
def qdiv (a b : Rat) : Rat := Rat.divInt (a.num * b.den) (a.den * b.num)

/-- Rational multiplication through `Rat.divInt`; equal to field
multiplication (see `qmul_eq_mul`) and evaluated directly by the kernel. -/
def qmul (a b : Rat) : Rat := Rat.divInt (a.num * b.num) (a.den * b.den)

/-- Rational addition through `Rat.divInt`; equal to field addition (see
`qadd_eq_add`) and evaluated directly by the kernel. -/
def qadd (a b : Rat) : Rat := Rat.divInt (a.num * b.den + b.num * a.den) (a.den * b.den)

/-- Sum of a rational list through `qadd`. -/
def qsum (l : List Rat) : Rat := l.foldr qadd 0

/-- Modelled from the spec: the DiffScanner (native code, not under src/)
walks the overlapping rows of both images and collects the pixels the
classifier marks as different. -/
def overlapDiffs (C : Classifier) (im1 im2 : Image) : List DiffPixel :=
  ((List.range (min im1.height im2.height)).map (fun y =>
    (List.range im1.width).filterMap (fun x =>
      match C (im1.pix x y) (im2.pix x y) with
      | PixelClass.different i => some (DiffPixel.mk x y i)
      | _ => none))).flatten

/-- Modelled from the spec: the DiffScanner counts the pixels reclassified as
anti-aliasing artifacts; they are excluded from the raw diff count. -/
def aaIgnored (C : Classifier) (im1 im2 : Image) : Nat :=
  ((List.range (min im1.height im2.height)).map (fun y =>
    ((List.range im1.width).filter (fun x =>
      match C (im1.pix x y) (im2.pix x y) with
      | PixelClass.aaArtifact => true
      | _ => false)).length)).sum

/-- Grow a bounding box so that it also covers one pixel. -/
def expandBox (bb : BoundingBox) (q : DiffPixel) : BoundingBox :=
  let x0 := min bb.x q.x
  let y0 := min bb.y q.y
  let x1 := max (bb.x + bb.width) (q.x + 1)
  let y1 := max (bb.y + bb.height) (q.y + 1)
  BoundingBox.mk x0 y0 (x1 - x0) (y1 - y0)

/-- Minimal bounding box of a pixel list, `none` when the list is empty. -/
def bboxOf : List DiffPixel → Option BoundingBox
  | [] => none
  | p :: ps => some (ps.foldl expandBox (BoundingBox.mk p.x p.y 1 1))

/-- Modelled from the spec: rows beyond the shorter image yield a HeightDiff
with `extraPixels = |height1 - height2| * width`, bypassing the classifier. -/
def heightDiffOf (im1 im2 : Image) : Option HeightDiff :=
  if im1.height = im2.height then none
  else some (HeightDiff.mk im1.height im2.height
    ((max im1.height im2.height - min im1.height im2.height) * im1.width))

/-- Color-vision-deficiency kinds simulated by the engine. -/
inductive CvdKind where
  | protanopia : CvdKind
  | deuteranopia : CvdKind
  | tritanopia : CvdKind
  | achromatopsia : CvdKind
deriving DecidableEq, Repr

/-- Per-cluster color-blindness impact: one visibility flag per simulated
CVD kind plus an aggregate visibility score. -/
structure ColorBlindnessImpact where
  protanopiaVisible : Bool
  deuteranopiaVisible : Bool
  tritanopiaVisible : Bool
  achromatopsiaVisible : Bool
  visibilityScore : Rat
deriving DecidableEq, Repr

/-- Per-cluster accessibility metadata; only the color-blindness part is
modelled, the other fields of the source record do not occur in any claim. -/
structure AccessibilityMetadata where
  colorBlindnessImpact : Option ColorBlindnessImpact
deriving DecidableEq, Repr

/-- A connected cluster of differing pixels. -/
structure DiffCluster where
  pixelCount : Nat
  centerOfMass : Rat × Rat
  avgIntensity : Rat
  boundingBox : BoundingBox
  accessibilityMetadata : Option AccessibilityMetadata
deriving DecidableEq, Repr

/-- Eight-connectivity of two diff pixels (distinct, within one step in
both coordinates). -/
def adj8 (p q : DiffPixel) : Bool :=
  decide ((p.x ≠ q.x ∨ p.y ≠ q.y) ∧
    p.x ≤ q.x + 1 ∧ q.x ≤ p.x + 1 ∧ p.y ≤ q.y + 1 ∧ q.y ≤ p.y + 1)

/-- One step of incremental connected-component labeling: all existing
components touching the new pixel fuse with it into one component. -/
def addPoint (comps : List (List DiffPixel)) (p : DiffPixel) : List (List DiffPixel) :=
  let pr := comps.partition (fun c => c.any (adj8 p))
  (p :: pr.1.flatten) :: pr.2

/-- Modelled from the spec: the ClusterEngine (native code, not under src/)
builds 8-connected components over the non-AA diff pixels. -/
def components (ps : List DiffPixel) : List (List DiffPixel) :=
  ps.foldl addPoint []

/-- Cluster statistics of one component: count, pixel-weighted centroid,
average intensity and bounding box. -/
def mkCluster (c : List DiffPixel) : DiffCluster :=
  { pixelCount := c.length
    centerOfMass := (qdiv (((c.map (fun p => p.x)).sum : Nat) : Rat) ((c.length : Nat) : Rat),
                     qdiv (((c.map (fun p => p.y)).sum : Nat) : Rat) ((c.length : Nat) : Rat))
    avgIntensity := qdiv (((c.map (fun p => p.intensity)).sum : Nat) : Rat) ((c.length : Nat) : Rat)
    boundingBox := (bboxOf c).getD (BoundingBox.mk 0 0 0 0)
    accessibilityMetadata := none }

/-- The clusters of the raw (pre-filter, pre-merge) diff pixel set. -/
def rawClusters (C : Classifier) (im1 im2 : Image) : List DiffCluster :=
  (components (overlapDiffs C im1 im2)).map mkCluster

/-- Modelled from the spec: noise filtering drops clusters whose pixel count
is below `minClusterSize`; their pixels stay in the raw diff count. -/
def noiseFilter (m : Nat) (cs : List DiffCluster) : List DiffCluster :=
  cs.filter (fun c => decide (m ≤ c.pixelCount))

/-- Options of the text-aware cluster merge, with the documented defaults. -/
structure MergeOptions where
  horizontalDistance : Nat := 15
  yBandTolerance : Nat := 5
  maxHeightRatio : Rat := 2
  maxWidthRatio : Rat := 3
deriving DecidableEq, Repr

/-- Modelled from the spec: two clusters qualify for merging when their
vertical ranges overlap within the y-band tolerance, the horizontal gap of
their boxes is at most `horizontalDistance`, and the height and width ratios
(max over min, symmetric) stay below the configured bounds. -/
def shouldMerge (mo : MergeOptions) (c d : DiffCluster) : Bool :=
  let b1 := c.boundingBox
  let b2 := d.boundingBox
  decide (b1.y ≤ b2.y + b2.height + mo.yBandTolerance ∧
    b2.y ≤ b1.y + b1.height + mo.yBandTolerance ∧
    b1.x ≤ b2.x + b2.width + mo.horizontalDistance ∧
    b2.x ≤ b1.x + b1.width + mo.horizontalDistance ∧
    ((max b1.height b2.height : Nat) : Rat) ≤
      qmul mo.maxHeightRatio ((min b1.height b2.height : Nat) : Rat) ∧
    ((max b1.width b2.width : Nat) : Rat) ≤
      qmul mo.maxWidthRatio ((min b1.width b2.width : Nat) : Rat))

/-- Union of two bounding boxes. -/
def bboxUnion (b1 b2 : BoundingBox) : BoundingBox :=
  let x0 := min b1.x b2.x
  let y0 := min b1.y b2.y
  BoundingBox.mk x0 y0
    (max (b1.x + b1.width) (b2.x + b2.width) - x0)
    (max (b1.y + b1.height) (b2.y + b2.height) - y0)

/-- Pixel-weighted union of two clusters: counts add, centroid and intensity
are weighted means, boxes unite. -/
def mergeClusters (c d : DiffCluster) : DiffCluster :=
  let n := c.pixelCount + d.pixelCount
  { pixelCount := n
    centerOfMass :=
      (qdiv (qadd (qmul (c.pixelCount : Rat) c.centerOfMass.1)
          (qmul (d.pixelCount : Rat) d.centerOfMass.1)) (n : Rat),
       qdiv (qadd (qmul (c.pixelCount : Rat) c.centerOfMass.2)
          (qmul (d.pixelCount : Rat) d.centerOfMass.2)) (n : Rat))
    avgIntensity :=
      qdiv (qadd (qmul (c.pixelCount : Rat) c.avgIntensity)
        (qmul (d.pixelCount : Rat) d.avgIntensity)) (n : Rat)
    boundingBox := bboxUnion c.boundingBox d.boundingBox
    accessibilityMetadata := none }

/-- Find the first partner of `c` that qualifies for merging; returns the
merged cluster and the remaining list. -/
def extractMerge (mo : MergeOptions) (c : DiffCluster) :
    List DiffCluster → Option (DiffCluster × List DiffCluster)
  | [] => none
  | d :: ds =>
    if shouldMerge mo c d then some (mergeClusters c d, ds)
    else
      match extractMerge mo c ds with
      | some (m, rest) => some (m, d :: rest)
      | none => none

/-- Perform one merge of any qualifying pair, if such a pair exists. -/
def mergeStep (mo : MergeOptions) : List DiffCluster → Option (List DiffCluster)
  | [] => none
  | c :: cs =>
    match extractMerge mo c cs with
    | some (m, rest) => some (m :: rest)
    | none => (mergeStep mo cs).map (fun l => c :: l)

/-- Modelled from the spec: the merge is iterative and transitive, repeatedly
merging qualifying pairs until none qualifies.  Each merge shortens the list,
so a fuel equal to the initial length suffices. -/
def mergeAll (mo : MergeOptions) : Nat → List DiffCluster → List DiffCluster
  | 0, cs => cs
  | fuel + 1, cs =>
    match mergeStep mo cs with
    | some cs' => mergeAll mo fuel cs'
    | none => cs

/-- Modelled from the spec: the deterministic output order of clusters —
pixel count descending, ties by ascending bounding-box origin. -/
def clusterBefore (c d : DiffCluster) : Prop :=
  d.pixelCount < c.pixelCount ∨
    (d.pixelCount = c.pixelCount ∧
      (c.boundingBox.x < d.boundingBox.x ∨
        (c.boundingBox.x = d.boundingBox.x ∧ c.boundingBox.y ≤ d.boundingBox.y)))

instance instDecClusterBefore : DecidableRel clusterBefore := fun c d =>
  inferInstanceAs (Decidable (d.pixelCount < c.pixelCount ∨
    (d.pixelCount = c.pixelCount ∧
      (c.boundingBox.x < d.boundingBox.x ∨
        (c.boundingBox.x = d.boundingBox.x ∧ c.boundingBox.y ≤ d.boundingBox.y)))))

instance instTotalClusterBefore : IsTotal DiffCluster clusterBefore :=
  ⟨by intro a b; unfold clusterBefore; omega⟩

instance instTransClusterBefore : IsTrans DiffCluster clusterBefore :=
  ⟨by intro a b c; unfold clusterBefore; omega⟩

/-- The sort key of a cluster: pixel count and bounding-box origin. -/
def ckey (c : DiffCluster) : Nat × Nat × Nat :=
  (c.pixelCount, c.boundingBox.x, c.boundingBox.y)

/-- Clusters sorted by pixel count descending, ties by bounding-box origin. -/
def sortClusters (cs : List DiffCluster) : List DiffCluster :=
  List.insertionSort clusterBefore cs

/-- Count a Bool as 0 or 1. -/
def boolNat (b : Bool) : Nat := if b then 1 else 0

/-- Modelled from the spec: per-cluster visibility of the change under each
CVD simulation (native code, not under src/).  The per-kind visibility
measure is kept as a parameter; a kind is visible when the measure exceeds
the configured threshold, and the score is the visible fraction of the four
kinds. -/
def mkImpact (thr : Rat) (v : CvdKind → Rat) : ColorBlindnessImpact :=
  let p := decide (thr < v CvdKind.protanopia)
  let d := decide (thr < v CvdKind.deuteranopia)
  let t := decide (thr < v CvdKind.tritanopia)
  let ac := decide (thr < v CvdKind.achromatopsia)
  { protanopiaVisible := p
    deuteranopiaVisible := d
    tritanopiaVisible := t
    achromatopsiaVisible := ac
    visibilityScore := qdiv ((boolNat p + boolNat d + boolNat t + boolNat ac : Nat) : Rat) 4 }

/-- Comparison options with the documented defaults.  The color/threshold
options live inside the classifier parameter; artifact paths are out of the
modelled core. -/
structure CompareOptions where
  includeClusters : Bool := false
  includeSSIM : Bool := false
  includeGMSD : Bool := false
  minClusterSize : Nat := 2
  clusterMerge : Option MergeOptions := none
  includeAccessibilityData : Bool := false
  checkColorBlindness : Bool := false
  colorBlindnessThreshold : Rat := 30
deriving DecidableEq, Repr

/-- A perceptual score computed from the two decoded images (SSIM or GMSD).
Modelled from the spec: the scores are real-valued window statistics of the
native code, kept as parameters of the pipeline. -/
abbrev ScoreFn := Image → Image → Rat

/-- A per-cluster, per-CVD-kind visibility measure, kept as a parameter. -/
abbrev CvdVis := CvdKind → DiffCluster → Rat

/-- The accessibility metadata attached to a cluster, resolving the implied
option: `checkColorBlindness` implies accessibility data; the impact is only
populated when color blindness checking was enabled. -/
def metaFor (o : CompareOptions) (vis : CvdVis) (c : DiffCluster) : Option AccessibilityMetadata :=
  if o.checkColorBlindness then
    some (AccessibilityMetadata.mk (some (mkImpact o.colorBlindnessThreshold (fun k => vis k c))))
  else if o.includeAccessibilityData then
    some (AccessibilityMetadata.mk none)
  else none

/-- Attach the requested accessibility metadata to a cluster. -/
def attachMeta (o : CompareOptions) (vis : CvdVis) (c : DiffCluster) : DiffCluster :=
  { c with accessibilityMetadata := metaFor o vis c }

/-- The aggregate result of one comparison.  The per-pixel list and the
intensity statistics of the source record occur in no claim and are left
out of the model. -/
structure DiffResult where
  isDifferent : Bool
  diffPercentage : Rat
  totalPixels : Nat
  diffPixels : Nat
  aaPixelsIgnored : Nat
  aaPercentage : Rat
  boundingBox : Option BoundingBox
  heightDiff : Option HeightDiff
  diffClusters : Option (List DiffCluster)
  perceptualScore : Option Rat
  gmsdScore : Option Rat
deriving DecidableEq, Repr

/-- Modelled from the spec: the comparison pipeline of the native engine
(not under src/).  Width mismatch is the fatal error (`none`); height
mismatch is a supported feature.  `diffPixels` is the raw count; noise
filtering only affects `isDifferent` and the reported clusters; SSIM
short-circuits to 1 on a zero raw count; GMSD degrades to `null` on height
mismatch. -/
def compare (C : Classifier) (ssim gmsd : ScoreFn) (vis : CvdVis)
    (o : CompareOptions) (im1 im2 : Image) : Option DiffResult :=
  if im1.width ≠ im2.width then none
  else
    let ds := overlapDiffs C im1 im2
    let surviving := noiseFilter o.minClusterSize (rawClusters C im1 im2)
    let merged :=
      match o.clusterMerge with
      | none => surviving
      | some mo => mergeAll mo surviving.length surviving
    let final := (sortClusters merged).map (attachMeta o vis)
    let hd := heightDiffOf im1 im2
    let total := im1.width * max im1.height im2.height
    some {
      isDifferent := hd.isSome || !surviving.isEmpty
      diffPercentage := qdiv ((100 * ds.length : Nat) : Rat) ((total : Nat) : Rat)
      totalPixels := total
      diffPixels := ds.length
      aaPixelsIgnored := aaIgnored C im1 im2
      aaPercentage := qdiv ((100 * aaIgnored C im1 im2 : Nat) : Rat) ((total : Nat) : Rat)
      boundingBox := bboxOf ds
      heightDiff := hd
      diffClusters := if o.includeClusters || o.clusterMerge.isSome then some final else none
      perceptualScore :=
        if o.includeSSIM then (if ds.length = 0 then some 1 else some (ssim im1 im2)) else none
      gmsdScore :=
        if o.includeGMSD then (if im1.height = im2.height then some (gmsd im1 im2) else none)
        else none }

/-- Diff magnitude buckets of the fingerprint. -/
inductive DiffMagnitude where
  | tiny : DiffMagnitude
  | small : DiffMagnitude
  | medium : DiffMagnitude
  | large : DiffMagnitude
  | massive : DiffMagnitude
deriving DecidableEq, Repr

/-- Modelled from the spec: the fixed diff-percentage breakpoints of the
magnitude buckets are not recorded in the repository; representative
breakpoints are chosen (no claim depends on their values). -/
def bucketMagnitude (pct : Rat) : DiffMagnitude :=
  if pct < qdiv 1 10 then DiffMagnitude.tiny
  else if pct < 1 then DiffMagnitude.small
  else if pct < 5 then DiffMagnitude.medium
  else if pct < 20 then DiffMagnitude.large
  else DiffMagnitude.massive

/-- Three-bit encoding of the magnitude bucket. -/
def magnitudeBits : DiffMagnitude → Nat
  | DiffMagnitude.tiny => 0
  | DiffMagnitude.small => 1
  | DiffMagnitude.medium => 2
  | DiffMagnitude.large => 3
  | DiffMagnitude.massive => 4

/-- Modelled from the spec: the coarse two-bit cluster-count bucket of the
fingerprint hash. -/
def countBucket (n : Nat) : Nat :=
  if n ≤ 1 then 0 else if n ≤ 3 then 1 else if n ≤ 10 then 2 else 3

/-- The 4×4 zone (numbered row-major) holding a cluster centroid. -/
def zoneOf (w h : Nat) (c : DiffCluster) : Nat :=
  let zx := min 3 (qdiv (qmul c.centerOfMass.1 4) (w : Rat)).floor.toNat
  let zy := min 3 (qdiv (qmul c.centerOfMass.2 4) (h : Rat)).floor.toNat
  zy * 4 + zx

/-- The 16-bit zone mask: bit i set when some cluster centroid falls in
zone i. -/
def zoneMaskOf (w h : Nat) (cs : List DiffCluster) : Nat :=
  cs.foldl (fun m c => m ||| (1 <<< zoneOf w h c)) 0

/-- One hexadecimal digit. -/
def hexDigit (n : Nat) : Char :=
  if n < 10 then Char.ofNat (48 + n) else Char.ofNat (87 + n)

/-- Fixed-width big-endian hexadecimal digits of a number. -/
def hexChars : Nat → Nat → List Char
  | 0, _ => []
  | k + 1, n => hexChars k (n / 16) ++ [hexDigit (n % 16)]

/-- A 16-character hexadecimal string. -/
def hex16 (n : Nat) : String := String.mk (hexChars 16 n)

/-- Pack zone mask, magnitude bits and count bucket into one number. -/
def packHash (zm : Nat) (mag : DiffMagnitude) (count : Nat) : Nat :=
  zm * 32 + magnitudeBits mag * 4 + countBucket count

/-- The compact descriptor of a diff used for cross-comparison grouping. -/
structure DiffFingerprint where
  clusterCount : Nat
  clusterPositions : List (Rat × Rat)
  clusterSizes : List Rat
  avgIntensity : Rat
  avgDensity : Rat
  zoneMask : Nat
  diffMagnitude : DiffMagnitude
  hash : String
deriving DecidableEq, Repr

/-- Modelled from the spec: the FingerprintEngine (native code, not under
src/) normalizes centroids and sizes by the image dimensions, buckets the
diff percentage, computes the 4×4 zone mask and packs the coarse hash.
Returns `none` for a cluster-free result. -/
def computeFingerprint (pct : Rat) (w h : Nat) (cs : List DiffCluster) : Option DiffFingerprint :=
  if cs.isEmpty then none
  else
    let zm := zoneMaskOf w h cs
    let mag := bucketMagnitude pct
    some {
      clusterCount := cs.length
      clusterPositions := cs.map (fun c =>
        (qdiv c.centerOfMass.1 (w : Rat), qdiv c.centerOfMass.2 (h : Rat)))
      clusterSizes := cs.map (fun c => qdiv (c.pixelCount : Rat) ((w * h : Nat) : Rat))
      avgIntensity := qdiv (qsum (cs.map (fun c => c.avgIntensity))) (cs.length : Rat)
      avgDensity := qdiv (qsum (cs.map (fun c =>
        qdiv (c.pixelCount : Rat) ((c.boundingBox.width * c.boundingBox.height : Nat) : Rat))))
        (cs.length : Rat)
      zoneMask := zm
      diffMagnitude := mag
      hash := hex16 (packHash zm mag cs.length) }

/-- Modelled from the spec: the coarse hash of a fingerprint packs its zone
mask, magnitude bucket and cluster-count bucket into a fixed-width hex
string. -/
def fingerprintHash (fp : DiffFingerprint) : String :=
  hex16 (packHash fp.zoneMask fp.diffMagnitude fp.clusterCount)

/-- WCAG contrast ratio of two relative luminances:
`(L1 + 0.05) / (L2 + 0.05)` with `L1 ≥ L2`. -/
def wcagContrast (l1 l2 : Rat) : Rat :=
  (max l1 l2 + 1 / 20) / (min l1 l2 + 1 / 20)

/-- Minimum of a rational list (0 on the empty list). -/
def listMin : List Rat → Rat
  | [] => 0
  | [x] => x
  | x :: y :: t => min x (listMin (y :: t))

/-- Maximum of a rational list (0 on the empty list). -/
def listMax : List Rat → Rat
  | [] => 0
  | [x] => x
  | x :: y :: t => max x (listMax (y :: t))

/-- A WCAG contrast violation region.  The color and geometry fields of the
source record occur in no claim and are left out; `contrastAvg`,
`contrastMin` and `contrastMax` model the average, minimum and maximum
contrast ratio fields of the source. -/
structure ContrastViolation where
  pixelCount : Nat
  contrastAvg : Rat
  contrastMin : Rat
  contrastMax : Rat
  failsAaNormal : Bool
  failsAaLarge : Bool
  failsAaaNormal : Bool
  failsAaaLarge : Bool
deriving DecidableEq, Repr

/-- Modelled from the spec: the WcagAnalyzer (native code, not under src/)
computes, over the edge pixels of a detected region, the mean, minimum and
maximum contrast ratio from per-pixel foreground/background luminances and
evaluates the WCAG AA/AAA thresholds.  The relative-luminance function is
kept as a parameter (its sRGB power curve is real-valued); the spec fixes
its range `[0, 1]`. -/
def mkViolation (lum : Pixel → Rat) (region : List (Pixel × Pixel)) : ContrastViolation :=
  let rs := region.map (fun pq => wcagContrast (lum pq.1) (lum pq.2))
  let avg := rs.sum / (rs.length : Rat)
  { pixelCount := region.length
    contrastAvg := avg
    contrastMin := listMin rs
    contrastMax := listMax rs
    failsAaNormal := decide (avg < 9 / 2)
    failsAaLarge := decide (avg < 3)
    failsAaaNormal := decide (avg < 7)
    failsAaaLarge := decide (avg < 9 / 2) }

/-- Sum of the pixel counts of a cluster list. -/
def sumCounts (cs : List DiffCluster) : Nat :=
  (cs.map DiffCluster.pixelCount).sum

/-- A concrete classifier for witnesses: exact pixel equality.  On the
concrete scenario colors it agrees with the CIEDE2000 classifier at the
default threshold (identical pixels have delta-E 0; black/red pairs are far
above 2.0). -/
def eqClassifier : Classifier := fun p q =>
  if p = q then PixelClass.same
  else PixelClass.different (max (max (max (p.r - q.r) (q.r - p.r))
    (max (p.g - q.g) (q.g - p.g))) (max (p.b - q.b) (q.b - p.b)))

/-- Constant-zero score function for witnesses. -/
def zeroScore : ScoreFn := fun _ _ => 0

/-- Constant-zero visibility measure for witnesses. -/
def zeroVis : CvdVis := fun _ _ => 0

/-- Opaque black pixel. -/
def blackPx : Pixel := Pixel.mk 0 0 0 255

/-- Opaque red pixel. -/
def redPx : Pixel := Pixel.mk 255 0 0 255

/-- A 10×10 all-black image. -/
def imgBlack : Image := Image.mk 10 10 (fun _ _ => blackPx)

/-- A 10×10 black image with a 3×3 red block at (2,2). -/
def imgRedBlock : Image := Image.mk 10 10 (fun x y =>
  if 2 ≤ x ∧ x < 5 ∧ 2 ≤ y ∧ y < 5 then redPx else blackPx)

/-- A 2×1 all-black image. -/
def imgTall1 : Image := Image.mk 2 1 (fun _ _ => blackPx)

/-- A 2×2 all-black image. -/
def imgTall2 : Image := Image.mk 2 2 (fun _ _ => blackPx)

end Honeydiff

namespace Honeydiff

/-- On identical images a classifier that maps equal pixel pairs to `same`
produces no diff pixels. -/
theorem overlapDiffs_self (C : Classifier) (hC : ∀ p, C p p = PixelClass.same)
    (img : Image) : overlapDiffs C img img = [] := by
  unfold overlapDiffs
  rw [List.flatten_eq_nil_iff]
  intro l hl
  rw [List.mem_map] at hl
  obtain ⟨y, _, rfl⟩ := hl
  rw [List.filterMap_eq_nil_iff]
  intro x _
  rw [hC]

/-- Fusing the components touching a new pixel only regroups the pixels. -/
theorem addPoint_flatten_perm (comps : List (List DiffPixel)) (p : DiffPixel) :
    (addPoint comps p).flatten.Perm (p :: comps.flatten) := by
  unfold addPoint
  simp only [List.partition_eq_filter_filter, List.flatten_cons, List.cons_append]
  refine List.Perm.cons p ?_
  rw [← List.flatten_append]
  refine List.Perm.flatten ?_
  have := List.filter_append_perm (fun c => c.any (adj8 p)) comps
  simpa [Function.comp] using this

/-- Incremental labeling started from any accumulator only regroups. -/
theorem foldl_addPoint_flatten_perm (ps : List DiffPixel) :
    ∀ comps : List (List DiffPixel),
      (ps.foldl addPoint comps).flatten.Perm (ps ++ comps.flatten) := by
  induction ps with
  | nil => intro comps; simp
  | cons p t ih =>
    intro comps
    simp only [List.foldl_cons, List.cons_append]
    exact ((ih _).trans
      ((List.Perm.append_left t (addPoint_flatten_perm comps p)).trans List.perm_middle))

/-- The connected components regroup exactly the input pixels. -/
theorem components_flatten_perm (ps : List DiffPixel) :
    (components ps).flatten.Perm ps := by
  simpa using foldl_addPoint_flatten_perm ps []

/-- A pixel absent from every component is counted by no component. -/
theorem countP_mem_zero (p : DiffPixel) (L : List (List DiffPixel))
    (h : (L.map (List.count p)).sum = 0) :
    L.countP (fun c => decide (p ∈ c)) = 0 := by
  induction L with
  | nil => rfl
  | cons c t ih =>
    simp only [List.map_cons, List.sum_cons] at h
    have hc : List.count p c = 0 := by omega
    have ht := ih (by omega)
    rw [List.countP_cons]
    simp [List.count_eq_zero.mp hc, ht]

/-- A pixel with total multiplicity one lies in exactly one component. -/
theorem countP_mem_one (p : DiffPixel) (L : List (List DiffPixel))
    (h : (L.map (List.count p)).sum = 1) :
    L.countP (fun c => decide (p ∈ c)) = 1 := by
  induction L with
  | nil => simp at h
  | cons c t ih =>
    simp only [List.map_cons, List.sum_cons] at h
    rw [List.countP_cons]
    by_cases hp : p ∈ c
    · have hc : 0 < List.count p c := List.count_pos_iff.mpr hp
      have ht : (t.map (List.count p)).sum = 0 := by omega
      rw [countP_mem_zero p t ht]
      simp [hp]
    · rw [List.count_eq_zero.mpr hp] at h
      rw [ih (by omega)]
      simp [hp]

/-- Merging a found partner preserves the total pixel count. -/
theorem extractMerge_sum (mo : MergeOptions) (c : DiffCluster) :
    ∀ (l : List DiffCluster) (m : DiffCluster) (rest : List DiffCluster),
      extractMerge mo c l = some (m, rest) →
      m.pixelCount + sumCounts rest = c.pixelCount + sumCounts l := by
  intro l
  induction l with
  | nil => intro m rest h; simp [extractMerge] at h
  | cons d ds ih =>
    intro m rest h
    simp only [extractMerge] at h
    split at h
    · rw [Option.some.injEq, Prod.mk.injEq] at h
      obtain ⟨hm, hrest⟩ := h
      subst hm
      subst hrest
      simp [mergeClusters, sumCounts]
      omega
    · split at h
      · next m' rest' heq =>
        rw [Option.some.injEq, Prod.mk.injEq] at h
        obtain ⟨hm, hrest⟩ := h
        subst hm
        subst hrest
        have := ih m' rest' heq
        simp only [sumCounts, List.map_cons, List.sum_cons] at *
        omega
      · exact absurd h (by simp)

/-- One merge step preserves the total pixel count. -/
theorem mergeStep_sum (mo : MergeOptions) :
    ∀ (l l' : List DiffCluster), mergeStep mo l = some l' → sumCounts l' = sumCounts l := by
  intro l
  induction l with
  | nil => intro l' h; simp [mergeStep] at h
  | cons c cs ih =>
    intro l' h
    simp only [mergeStep] at h
    split at h
    · next m rest heq =>
      rw [Option.some.injEq] at h
      subst h
      have := extractMerge_sum mo c cs m rest heq
      simp only [sumCounts, List.map_cons, List.sum_cons] at *
      omega
    · rw [Option.map_eq_some'] at h
      obtain ⟨l'', hstep, rfl⟩ := h
      have := ih l'' hstep
      simp only [sumCounts, List.map_cons, List.sum_cons] at *
      omega

/-- Iterated merging preserves the total pixel count. -/
theorem mergeAll_sum (mo : MergeOptions) :
    ∀ (fuel : Nat) (cs : List DiffCluster), sumCounts (mergeAll mo fuel cs) = sumCounts cs := by
  intro fuel
  induction fuel with
  | zero => intro cs; rfl
  | succ n ih =>
    intro cs
    simp only [mergeAll]
    split
    · next cs' heq => rw [ih cs', mergeStep_sum mo cs cs' heq]
    · rfl

/-- Strengthening a Boolean filter never lengthens its output. -/
theorem filter_length_mono {α : Type} (p q : α → Bool) (l : List α)
    (h : ∀ a, q a = true → p a = true) :
    (l.filter q).length ≤ (l.filter p).length := by
  induction l with
  | nil => simp
  | cons a t ih =>
    simp only [List.filter_cons]
    split
    · next hq =>
      rw [if_pos (h a hq)]
      simp only [List.length_cons]
      omega
    · split
      · simp only [List.length_cons]
        omega
      · exact ih

end Honeydiff

namespace Honeydiff

/-- Claim C1: for every comparison run with a `minClusterSize` noise filter the
returned `diffPixels` is the raw, unfiltered count (independent of the filter
setting), while `isDifferent` is computed after noise filtering; in the 10×10
black-vs-red-block scenario with `minClusterSize = 10` the result has
`diffPixels = 9`, `diffClusters = []` and `isDifferent = false`. -/
theorem claimC1 :
    (∀ (C : Classifier) (ssim gmsd : ScoreFn) (vis : CvdVis) (o : CompareOptions)
      (m m' : Nat) (im1 im2 : Image),
      (compare C ssim gmsd vis { o with minClusterSize := m } im1 im2).map DiffResult.diffPixels =
        (compare C ssim gmsd vis { o with minClusterSize := m' } im1 im2).map DiffResult.diffPixels) ∧
    ((compare eqClassifier zeroScore zeroScore zeroVis
        { minClusterSize := 10, includeClusters := true } imgBlack imgRedBlock).map
        DiffResult.diffPixels = some 9 ∧
      (compare eqClassifier zeroScore zeroScore zeroVis
        { minClusterSize := 10, includeClusters := true } imgBlack imgRedBlock).map
        DiffResult.diffClusters = some (some []) ∧
      (compare eqClassifier zeroScore zeroScore zeroVis
        { minClusterSize := 10, includeClusters := true } imgBlack imgRedBlock).map
        DiffResult.isDifferent = some false) := by
  refine ⟨?_, by decide, by decide, by decide⟩
  intro C ssim gmsd vis o m m' im1 im2
  rcases eq_or_ne im1.width im2.width with hw | hw
  · simp [compare, hw]
  · simp [compare, hw]

/-- Claim C3: comparing an image with itself yields `diffPixels = 0`,
`isDifferent = false`, a null bounding box, `diffClusters` null unless
clustering was requested (then empty), and `perceptualScore = 1` exactly when
SSIM is requested. -/
theorem claimC3 (C : Classifier) (ssim gmsd : ScoreFn) (vis : CvdVis)
    (o : CompareOptions) (img : Image) (hC : ∀ p, C p p = PixelClass.same) :
    (compare C ssim gmsd vis o img img).map DiffResult.diffPixels = some 0 ∧
    (compare C ssim gmsd vis o img img).map DiffResult.isDifferent = some false ∧
    (compare C ssim gmsd vis o img img).map DiffResult.boundingBox = some none ∧
    (compare C ssim gmsd vis o img img).map DiffResult.diffClusters =
      some (if o.includeClusters || o.clusterMerge.isSome then some [] else none) ∧
    (o.includeSSIM = true →
      (compare C ssim gmsd vis o img img).map DiffResult.perceptualScore = some (some 1)) ∧
    (o.includeSSIM = false →
      (compare C ssim gmsd vis o img img).map DiffResult.perceptualScore = some none) := by
  have hds : overlapDiffs C img img = [] := overlapDiffs_self C hC img
  have hraw : rawClusters C img img = [] := by
    rw [rawClusters, hds]
    rfl
  refine ⟨?_, ?_, ?_, ?_, ?_, ?_⟩
  · simp [compare, hds]
  · cases hcm : o.clusterMerge <;>
      simp [compare, hds, hraw, noiseFilter, heightDiffOf, hcm]
  · simp [compare, hds, bboxOf]
  · cases hcm : o.clusterMerge <;>
      simp [compare, hds, hraw, noiseFilter, sortClusters, mergeAll, hcm]
  · intro hs
    simp [compare, hds, hs]
  · intro hs
    simp [compare, hds, hs]

/-- Claim C2: equal-width images with different heights and identical
overlapping rows yield a `HeightDiff` with
`extraPixels = |height1 - height2| * width` and `isDifferent = true`, for
every option record (hence every `minClusterSize`). -/
theorem claimC2 (C : Classifier) (ssim gmsd : ScoreFn) (vis : CvdVis) (o : CompareOptions)
    (im1 im2 : Image) (hw : im1.width = im2.width) (hh : im1.height ≠ im2.height)
    (hov : ∀ x y, x < im1.width → y < min im1.height im2.height → im1.pix x y = im2.pix x y)
    (hC : ∀ p, C p p = PixelClass.same) :
    (compare C ssim gmsd vis o im1 im2).map DiffResult.heightDiff =
      some (some (HeightDiff.mk im1.height im2.height
        ((max im1.height im2.height - min im1.height im2.height) * im1.width))) ∧
    (compare C ssim gmsd vis o im1 im2).map DiffResult.isDifferent = some true := by
  constructor
  · simp [compare, hw, heightDiffOf, hh]
  · simp [compare, hw, heightDiffOf, hh]

/-- Claim C5: for fixed inputs, a larger `minClusterSize` never increases the
number of clusters surviving noise filtering, and `diffPixels` is invariant
under the filter setting. -/
theorem claimC5 :
    (∀ (C : Classifier) (im1 im2 : Image) (m m' : Nat), m ≤ m' →
      (noiseFilter m' (rawClusters C im1 im2)).length ≤
        (noiseFilter m (rawClusters C im1 im2)).length) ∧
    (∀ (C : Classifier) (ssim gmsd : ScoreFn) (vis : CvdVis) (o : CompareOptions)
      (m m' : Nat) (im1 im2 : Image),
      (compare C ssim gmsd vis { o with minClusterSize := m } im1 im2).map DiffResult.diffPixels =
        (compare C ssim gmsd vis { o with minClusterSize := m' } im1 im2).map
          DiffResult.diffPixels) := by
  constructor
  · intro C im1 im2 m m' hm
    apply filter_length_mono
    intro c hc
    simp only [decide_eq_true_eq] at hc ⊢
    omega
  · intro C ssim gmsd vis o m m' im1 im2
    rcases eq_or_ne im1.width im2.width with hw | hw
    · simp [compare, hw]
    · simp [compare, hw]

/-- Claim C4: before merging, the 8-connected clusters partition the diff
pixels — each diff pixel lies in exactly one component and the pixel counts
sum to the raw diff count — and iterated merging never changes the total
pixel count. -/
theorem claimC4 :
    (∀ ps : List DiffPixel, (components ps).flatten.Perm ps) ∧
    (∀ ps : List DiffPixel, ps.Nodup → ∀ p ∈ ps,
      (components ps).countP (fun c => decide (p ∈ c)) = 1) ∧
    (∀ (C : Classifier) (im1 im2 : Image),
      sumCounts (rawClusters C im1 im2) = (overlapDiffs C im1 im2).length) ∧
    (∀ (mo : MergeOptions) (fuel : Nat) (cs : List DiffCluster),
      sumCounts (mergeAll mo fuel cs) = sumCounts cs) := by
  refine ⟨components_flatten_perm, ?_, ?_, fun mo fuel cs => mergeAll_sum mo fuel cs⟩
  · intro ps hnd p hp
    have h1 : List.count p ((components ps).flatten) = 1 := by
      rw [(components_flatten_perm ps).count_eq]
      exact List.count_eq_one_of_mem hnd hp
    rw [List.count_flatten] at h1
    exact countP_mem_one p _ h1
  · intro C im1 im2
    have hmk : sumCounts ((components (overlapDiffs C im1 im2)).map mkCluster) =
        ((components (overlapDiffs C im1 im2)).map List.length).sum := by
      rw [sumCounts, List.map_map]
      congr 1
    rw [rawClusters, hmk, ← List.length_flatten,
      (components_flatten_perm (overlapDiffs C im1 im2)).length_eq]

/-- Claim C6: when the raw diff count is zero and SSIM is requested, the
perceptual score is exactly 1 and the result does not depend on the full
SSIM computation. -/
theorem claimC6 (C : Classifier) (ssim ssim2 gmsd : ScoreFn) (vis : CvdVis)
    (o : CompareOptions) (im1 im2 : Image) (hw : im1.width = im2.width)
    (hs : o.includeSSIM = true) (h0 : (overlapDiffs C im1 im2).length = 0) :
    (compare C ssim gmsd vis o im1 im2).map DiffResult.perceptualScore = some (some 1) ∧
    compare C ssim gmsd vis o im1 im2 = compare C ssim2 gmsd vis o im1 im2 := by
  constructor
  · simp [compare, hw, hs, h0]
  · simp [compare, hw, hs, h0]

/-- Claim C8: requesting GMSD on height-mismatched images degrades the
`gmsdScore` field to null while the comparison itself still completes and
reports the raw diff count. -/
theorem claimC8 (C : Classifier) (ssim gmsd : ScoreFn) (vis : CvdVis) (o : CompareOptions)
    (im1 im2 : Image) (hw : im1.width = im2.width) (hh : im1.height ≠ im2.height)
    (hg : o.includeGMSD = true) :
    (compare C ssim gmsd vis o im1 im2).map DiffResult.gmsdScore = some none ∧
    (compare C ssim gmsd vis o im1 im2).map DiffResult.diffPixels =
      some ((overlapDiffs C im1 im2).length) := by
  constructor <;> simp [compare, hw, hh, hg]

end Honeydiff

namespace Honeydiff

/-- The kernel-computable division agrees with field division. -/
theorem qdiv_eq_div (a b : Rat) : qdiv a b = a / b := by
  rw [qdiv, Rat.divInt_eq_div]
  push_cast
  rcases eq_or_ne b 0 with hb | hb
  · subst hb
    simp
  · have hbn : (b.num : Rat) ≠ 0 := by
      exact_mod_cast Rat.num_ne_zero.mpr hb
    have had : (a.den : Rat) ≠ 0 := by
      exact_mod_cast a.den_ne_zero
    have hbden : (b.den : Rat) ≠ 0 := by
      exact_mod_cast b.den_ne_zero
    rw [div_eq_div_iff (mul_ne_zero had hbn) hb]
    have ha2 := (div_eq_iff had).mp (Rat.num_div_den a)
    have hb2 := (div_eq_iff hbden).mp (Rat.num_div_den b)
    rw [ha2, hb2]
    ring

/-- The kernel-computable multiplication agrees with field multiplication. -/
theorem qmul_eq_mul (a b : Rat) : qmul a b = a * b := by
  rw [qmul, Rat.divInt_eq_div]
  push_cast
  conv_rhs => rw [← Rat.num_div_den a, ← Rat.num_div_den b]
  rw [div_mul_div_comm]

/-- The kernel-computable addition agrees with field addition. -/
theorem qadd_eq_add (a b : Rat) : qadd a b = a + b := by
  rw [qadd, Rat.divInt_eq_div]
  push_cast
  have had : (a.den : Rat) ≠ 0 := by exact_mod_cast a.den_ne_zero
  have hbd : (b.den : Rat) ≠ 0 := by exact_mod_cast b.den_ne_zero
  conv_rhs => rw [← Rat.num_div_den a, ← Rat.num_div_den b]
  rw [div_add_div _ _ had hbd]
  congr 1
  ring

/-- The kernel-computable list sum agrees with the monoid sum. -/
theorem qsum_eq_sum : ∀ l : List Rat, qsum l = l.sum
  | [] => rfl
  | x :: t => by
    simp only [qsum, List.foldr_cons, List.sum_cons]
    rw [qadd_eq_add]
    rw [show t.foldr qadd 0 = qsum t from rfl, qsum_eq_sum t]

/-- A Bool counts as at most one. -/
theorem boolNat_le_one (b : Bool) : boolNat b ≤ 1 := by
  unfold boolNat
  split <;> norm_num

/-- The visibility score of an impact record lies in [0, 1]. -/
theorem mkImpact_score_bounds (thr : Rat) (v : CvdKind → Rat) :
    0 ≤ (mkImpact thr v).visibilityScore ∧ (mkImpact thr v).visibilityScore ≤ 1 := by
  simp only [mkImpact, qdiv_eq_div]
  constructor
  · positivity
  · rw [div_le_one (by norm_num)]
    have h1 := boolNat_le_one (decide (thr < v CvdKind.protanopia))
    have h2 := boolNat_le_one (decide (thr < v CvdKind.deuteranopia))
    have h3 := boolNat_le_one (decide (thr < v CvdKind.tritanopia))
    have h4 := boolNat_le_one (decide (thr < v CvdKind.achromatopsia))
    have hsum : boolNat (decide (thr < v CvdKind.protanopia)) +
        boolNat (decide (thr < v CvdKind.deuteranopia)) +
        boolNat (decide (thr < v CvdKind.tritanopia)) +
        boolNat (decide (thr < v CvdKind.achromatopsia)) ≤ 4 := by omega
    exact_mod_cast hsum

/-- Claim C10: every cluster returned by a comparison with color-blindness
checking enabled carries accessibility metadata whose impact record holds the
four visibility flags and a visibility score in [0, 1]; without
color-blindness checking the impact field is null. -/
theorem claimC10 (C : Classifier) (ssim gmsd : ScoreFn) (vis : CvdVis) (o : CompareOptions)
    (im1 im2 : Image) (r : DiffResult) (cs : List DiffCluster) (c : DiffCluster)
    (hr : compare C ssim gmsd vis o im1 im2 = some r)
    (hcs : r.diffClusters = some cs) (hc : c ∈ cs) :
    (o.checkColorBlindness = true →
      ∃ imp : ColorBlindnessImpact,
        c.accessibilityMetadata = some (AccessibilityMetadata.mk (some imp)) ∧
        0 ≤ imp.visibilityScore ∧ imp.visibilityScore ≤ 1) ∧
    (o.checkColorBlindness = false →
      ∀ md : AccessibilityMetadata, c.accessibilityMetadata = some md →
        md.colorBlindnessImpact = none) := by
  unfold compare at hr
  split at hr
  · exact absurd hr (by simp)
  · simp only [Option.some.injEq] at hr
    subst hr
    simp only at hcs
    split at hcs
    · simp only [Option.some.injEq] at hcs
      subst hcs
      rw [List.mem_map] at hc
      obtain ⟨c0, _, rfl⟩ := hc
      constructor
      · intro hcb
        refine ⟨mkImpact o.colorBlindnessThreshold (fun k => vis k c0),
          ?_, (mkImpact_score_bounds _ _).1, (mkImpact_score_bounds _ _).2⟩
        simp [attachMeta, metaFor, hcb]
      · intro hcb md hmd
        simp only [attachMeta, metaFor, hcb] at hmd
        rcases Bool.eq_false_or_eq_true o.includeAccessibilityData with hacc | hacc
        all_goals simp [hacc] at hmd
        rw [← hmd]
    · exact absurd hcs (by simp)

end Honeydiff

namespace Honeydiff

/-- The WCAG ratio of two luminances in [0, 1] lies in [1, 21]. -/
theorem wcagContrast_bounds (l1 l2 : Rat) (h1 : 0 ≤ l1) (h2 : l1 ≤ 1)
    (h3 : 0 ≤ l2) (h4 : l2 ≤ 1) :
    1 ≤ wcagContrast l1 l2 ∧ wcagContrast l1 l2 ≤ 21 := by
  unfold wcagContrast
  have hmin : (0:Rat) ≤ min l1 l2 := le_min h1 h3
  have hm : (0:Rat) < min l1 l2 + 1 / 20 := by linarith
  constructor
  · rw [le_div_iff₀ hm]
    have := min_le_max (a := l1) (b := l2)
    linarith
  · rw [div_le_iff₀ hm]
    have hM : max l1 l2 ≤ 1 := max_le h2 h4
    linarith

/-- The minimum of a nonempty list of values at least one is at least one. -/
theorem one_le_listMin : ∀ (l : List Rat), (∀ x ∈ l, 1 ≤ x) → l ≠ [] → 1 ≤ listMin l
  | [], _, hne => absurd rfl hne
  | [x], h, _ => h x (by simp)
  | x :: y :: t, h, _ => by
    simp only [listMin]
    refine le_min (h x (by simp)) (one_le_listMin (y :: t) ?_ (by simp))
    intro z hz
    exact h z (List.mem_cons_of_mem x hz)

/-- The maximum of a nonempty list of values at most 21 is at most 21. -/
theorem listMax_le_21 : ∀ (l : List Rat), (∀ x ∈ l, x ≤ 21) → l ≠ [] → listMax l ≤ 21
  | [], _, hne => absurd rfl hne
  | [x], h, _ => h x (by simp)
  | x :: y :: t, h, _ => by
    simp only [listMax]
    refine max_le (h x (by simp)) (listMax_le_21 (y :: t) ?_ (by simp))
    intro z hz
    exact h z (List.mem_cons_of_mem x hz)

/-- The list minimum times the length bounds the sum from below. -/
theorem listMin_mul_length_le_sum : ∀ l : List Rat, listMin l * (l.length : Rat) ≤ l.sum
  | [] => by simp [listMin]
  | [x] => by simp [listMin]
  | x :: y :: t => by
    have ih := listMin_mul_length_le_sum (y :: t)
    simp only [listMin, List.sum_cons, List.length_cons] at ih ⊢
    push_cast at ih ⊢
    have h1 : min x (listMin (y :: t)) ≤ x := min_le_left _ _
    have h2 : min x (listMin (y :: t)) ≤ listMin (y :: t) := min_le_right _ _
    have h3 : (0:Rat) ≤ (t.length : Rat) + 1 := by positivity
    have h4 := mul_le_mul_of_nonneg_right h2 h3
    have hexp : min x (listMin (y :: t)) * ((t.length : Rat) + 1 + 1) =
        min x (listMin (y :: t)) * ((t.length : Rat) + 1) + min x (listMin (y :: t)) := by ring
    linarith

/-- The list maximum times the length bounds the sum from above. -/
theorem sum_le_listMax_mul_length : ∀ l : List Rat, l.sum ≤ listMax l * (l.length : Rat)
  | [] => by simp [listMax]
  | [x] => by simp [listMax]
  | x :: y :: t => by
    have ih := sum_le_listMax_mul_length (y :: t)
    simp only [listMax, List.sum_cons, List.length_cons] at ih ⊢
    push_cast at ih ⊢
    have h1 : x ≤ max x (listMax (y :: t)) := le_max_left _ _
    have h2 : listMax (y :: t) ≤ max x (listMax (y :: t)) := le_max_right _ _
    have h3 : (0:Rat) ≤ (t.length : Rat) + 1 := by positivity
    have h4 := mul_le_mul_of_nonneg_right h2 h3
    have hexp : max x (listMax (y :: t)) * ((t.length : Rat) + 1 + 1) =
        max x (listMax (y :: t)) * ((t.length : Rat) + 1) + max x (listMax (y :: t)) := by ring
    linarith

/-- Claim C7: every contrast violation satisfies
`1 ≤ minContrastRatio ≤ contrastRatio ≤ maxContrastRatio ≤ 21`. -/
theorem claimC7 (lum : Pixel → Rat) (region : List (Pixel × Pixel))
    (hne : region ≠ []) (hl : ∀ p : Pixel, 0 ≤ lum p ∧ lum p ≤ 1) :
    1 ≤ (mkViolation lum region).contrastMin ∧
    (mkViolation lum region).contrastMin ≤ (mkViolation lum region).contrastAvg ∧
    (mkViolation lum region).contrastAvg ≤ (mkViolation lum region).contrastMax ∧
    (mkViolation lum region).contrastMax ≤ 21 := by
  simp only [mkViolation]
  have hrsne : region.map (fun pq => wcagContrast (lum pq.1) (lum pq.2)) ≠ [] := by
    simpa using hne
  have hmem : ∀ x ∈ region.map (fun pq => wcagContrast (lum pq.1) (lum pq.2)),
      1 ≤ x ∧ x ≤ 21 := by
    intro x hx
    rw [List.mem_map] at hx
    obtain ⟨pq, _, rfl⟩ := hx
    exact wcagContrast_bounds _ _ (hl pq.1).1 (hl pq.1).2 (hl pq.2).1 (hl pq.2).2
  have hlen :
      (0:Rat) < ((region.map (fun pq => wcagContrast (lum pq.1) (lum pq.2))).length : Rat) := by
    have hz : (region.map (fun pq => wcagContrast (lum pq.1) (lum pq.2))).length ≠ 0 := by
      simpa [List.length_eq_zero] using hrsne
    exact_mod_cast Nat.pos_of_ne_zero hz
  refine ⟨one_le_listMin _ (fun x hx => (hmem x hx).1) hrsne, ?_, ?_,
    listMax_le_21 _ (fun x hx => (hmem x hx).2) hrsne⟩
  · rw [le_div_iff₀ hlen]
    exact listMin_mul_length_le_sum _
  · rw [div_le_iff₀ hlen]
    exact sum_le_listMax_mul_length _

end Honeydiff

namespace Honeydiff

/-- Mutual ordering of two clusters forces equal sort keys. -/
theorem ckey_eq_of_mutual (a b : DiffCluster)
    (h1 : clusterBefore a b) (h2 : clusterBefore b a) : ckey a = ckey b := by
  unfold clusterBefore at h1 h2
  unfold ckey
  have e1 : a.pixelCount = b.pixelCount := by omega
  have e2 : a.boundingBox.x = b.boundingBox.x := by omega
  have e3 : a.boundingBox.y = b.boundingBox.y := by omega
  rw [e1, e2, e3]

/-- Two sorted permutations of each other with pairwise-distinct sort keys
are equal. -/
theorem sorted_perm_eq_of_nodup_keys :
    ∀ {l₁ l₂ : List DiffCluster}, l₁.Perm l₂ →
      l₁.Sorted clusterBefore → l₂.Sorted clusterBefore →
      (l₁.map ckey).Nodup → l₁ = l₂ := by
  intro l₁
  induction l₁ with
  | nil =>
    intro l₂ hp _ _ _
    exact hp.nil_eq
  | cons a t ih =>
    intro l₂ hp hs₁ hs₂ hnd
    cases l₂ with
    | nil => exact absurd hp.symm.nil_eq (by simp)
    | cons b t₂ =>
      rw [List.map_cons, List.nodup_cons] at hnd
      by_cases hab : a = b
      · subst hab
        rw [ih hp.cons_inv (List.sorted_cons.mp hs₁).2 (List.sorted_cons.mp hs₂).2 hnd.2]
      · have hb1 : b ∈ a :: t := hp.mem_iff.mpr (List.mem_cons_self b t₂)
        have hbt : b ∈ t := by
          rcases List.mem_cons.mp hb1 with h | h
          · exact absurd h.symm hab
          · exact h
        have ha2 : a ∈ b :: t₂ := hp.mem_iff.mp (List.mem_cons_self a t)
        have hat : a ∈ t₂ := by
          rcases List.mem_cons.mp ha2 with h | h
          · exact absurd h hab
          · exact h
        have r1 : clusterBefore a b := (List.sorted_cons.mp hs₁).1 b hbt
        have r2 : clusterBefore b a := (List.sorted_cons.mp hs₂).1 a hat
        have hk := ckey_eq_of_mutual a b r1 r2
        have hmem : ckey b ∈ t.map ckey := List.mem_map_of_mem ckey hbt
        rw [← hk] at hmem
        exact absurd hmem hnd.1

/-- Sorting canonicalizes any permutation of a key-distinct cluster list. -/
theorem sortClusters_eq_of_perm (cs cs' : List DiffCluster)
    (hp : cs'.Perm cs) (hnd : (cs.map ckey).Nodup) :
    sortClusters cs' = sortClusters cs := by
  apply sorted_perm_eq_of_nodup_keys
  · exact (List.perm_insertionSort clusterBefore cs').trans
      (hp.trans (List.perm_insertionSort clusterBefore cs).symm)
  · exact List.sorted_insertionSort clusterBefore cs'
  · exact List.sorted_insertionSort clusterBefore cs
  · exact (List.Perm.nodup_iff
      (((List.perm_insertionSort clusterBefore cs').trans hp).map ckey)).mpr hnd

/-- Claim C9, amended: the fingerprint is invariant to the order the clusters
were produced in whenever no two clusters share the engine's sort key (pixel
count and bounding-box origin) — the deterministic sort then canonicalizes any
permutation — and the fingerprint hash is a function of the fingerprint's
packed fields alone.  Clusters that tie on the full sort key defeat the
order-invariance; see the counterexample below. -/
theorem claimC9 :
    (∀ (pct : Rat) (w h : Nat) (cs cs' : List DiffCluster),
      cs'.Perm cs → (cs.map ckey).Nodup →
      computeFingerprint pct w h (sortClusters cs') =
        computeFingerprint pct w h (sortClusters cs)) ∧
    (∀ fp fp' : DiffFingerprint, fp.zoneMask = fp'.zoneMask →
      fp.diffMagnitude = fp'.diffMagnitude → fp.clusterCount = fp'.clusterCount →
      fingerprintHash fp = fingerprintHash fp') := by
  constructor
  · intro pct w h cs cs' hp hnd
    rw [sortClusters_eq_of_perm cs cs' hp hnd]
  · intro fp fp' h1 h2 h3
    simp only [fingerprintHash, packHash, h1, h2, h3]

end Honeydiff

namespace Honeydiff

/-- Constant one-half luminance function for the C7 witness. -/
def halfLum : Pixel → Rat := fun _ => 1 / 2

/-- A cluster with sort key (4, 0, 0), for the C9 witness. -/
def clusterA : DiffCluster :=
  { pixelCount := 4
    centerOfMass := (1, 1)
    avgIntensity := 10
    boundingBox := BoundingBox.mk 0 0 2 2
    accessibilityMetadata := none }

/-- A cluster with sort key (2, 5, 5), for the C9 witness. -/
def clusterB : DiffCluster :=
  { pixelCount := 2
    centerOfMass := (6, 6)
    avgIntensity := 20
    boundingBox := BoundingBox.mk 5 5 2 2
    accessibilityMetadata := none }

/-- Options of the C10 witness comparison. -/
def c10opts : CompareOptions := { includeClusters := true, checkColorBlindness := true }

/-- The single cluster of the C10 witness comparison. -/
def c10cluster : DiffCluster :=
  { pixelCount := 9
    centerOfMass := (3, 3)
    avgIntensity := 255
    boundingBox := BoundingBox.mk 2 2 3 3
    accessibilityMetadata := some (AccessibilityMetadata.mk (some
      (ColorBlindnessImpact.mk false false false false 0))) }

/-- The full result of the C10 witness comparison. -/
def c10result : DiffResult :=
  { isDifferent := true
    diffPercentage := 9
    totalPixels := 100
    diffPixels := 9
    aaPixelsIgnored := 0
    aaPercentage := 0
    boundingBox := some (BoundingBox.mk 2 2 3 3)
    heightDiff := none
    diffClusters := some [c10cluster]
    perceptualScore := none
    gmsdScore := none }

/-- Witness for claim C2: a 2×1 and a 2×2 all-black image. -/
theorem claimC2_witness :
    imgTall1.width = imgTall2.width ∧ imgTall1.height ≠ imgTall2.height ∧
    ((compare eqClassifier zeroScore zeroScore zeroVis {} imgTall1 imgTall2).map
        DiffResult.heightDiff = some (some (HeightDiff.mk 1 2 2)) ∧
      (compare eqClassifier zeroScore zeroScore zeroVis {} imgTall1 imgTall2).map
        DiffResult.isDifferent = some true) :=
  ⟨rfl, by decide,
    claimC2 eqClassifier zeroScore zeroScore zeroVis {} imgTall1 imgTall2 rfl (by decide)
      (fun _ _ _ _ => rfl) (fun p => by simp [eqClassifier])⟩

/-- Witness for claim C3: the identity comparison of the all-black image with
SSIM requested. -/
theorem claimC3_witness :
    (∀ p : Pixel, eqClassifier p p = PixelClass.same) ∧
    (compare eqClassifier zeroScore zeroScore zeroVis { includeSSIM := true }
        imgBlack imgBlack).map DiffResult.perceptualScore = some (some 1) :=
  ⟨fun p => by simp [eqClassifier],
    (claimC3 eqClassifier zeroScore zeroScore zeroVis { includeSSIM := true } imgBlack
      (fun p => by simp [eqClassifier])).2.2.2.2.1 rfl⟩

/-- Witness for claim C4: a single diff pixel lies in exactly one component. -/
theorem claimC4_witness :
    ([DiffPixel.mk 0 0 5] : List DiffPixel).Nodup ∧
    (components [DiffPixel.mk 0 0 5]).countP
      (fun c => decide (DiffPixel.mk 0 0 5 ∈ c)) = 1 :=
  ⟨by decide, claimC4.2.1 [DiffPixel.mk 0 0 5] (by decide) (DiffPixel.mk 0 0 5) (by decide)⟩

/-- Witness for claim C5: raising the filter from 2 to 10 on the red-block
scenario does not increase the surviving cluster count. -/
theorem claimC5_witness :
    (2 : Nat) ≤ 10 ∧
    (noiseFilter 10 (rawClusters eqClassifier imgBlack imgRedBlock)).length ≤
      (noiseFilter 2 (rawClusters eqClassifier imgBlack imgRedBlock)).length :=
  ⟨by decide, claimC5.1 eqClassifier imgBlack imgRedBlock 2 10 (by decide)⟩

/-- Witness for claim C6: identical all-black images with SSIM requested. -/
theorem claimC6_witness :
    ({ includeSSIM := true } : CompareOptions).includeSSIM = true ∧
    (overlapDiffs eqClassifier imgBlack imgBlack).length = 0 ∧
    (compare eqClassifier zeroScore zeroScore zeroVis { includeSSIM := true }
        imgBlack imgBlack).map DiffResult.perceptualScore = some (some 1) :=
  ⟨rfl, by decide,
    (claimC6 eqClassifier zeroScore zeroScore zeroScore zeroVis { includeSSIM := true }
      imgBlack imgBlack rfl rfl (by decide)).1⟩

/-- Witness for claim C7: a one-pixel region under the constant one-half
luminance. -/
theorem claimC7_witness :
    ([((blackPx, redPx) : Pixel × Pixel)] ≠ ([] : List (Pixel × Pixel))) ∧
    (1 ≤ (mkViolation halfLum [(blackPx, redPx)]).contrastMin ∧
      (mkViolation halfLum [(blackPx, redPx)]).contrastMin ≤
        (mkViolation halfLum [(blackPx, redPx)]).contrastAvg ∧
      (mkViolation halfLum [(blackPx, redPx)]).contrastAvg ≤
        (mkViolation halfLum [(blackPx, redPx)]).contrastMax ∧
      (mkViolation halfLum [(blackPx, redPx)]).contrastMax ≤ 21) :=
  ⟨by simp,
    claimC7 halfLum [(blackPx, redPx)] (by simp)
      (fun p => ⟨by norm_num [halfLum], by norm_num [halfLum]⟩)⟩

/-- Witness for claim C8: GMSD requested on the 2×1 versus 2×2 comparison. -/
theorem claimC8_witness :
    imgTall1.width = imgTall2.width ∧ imgTall1.height ≠ imgTall2.height ∧
    (compare eqClassifier zeroScore zeroScore zeroVis { includeGMSD := true }
        imgTall1 imgTall2).map DiffResult.gmsdScore = some none :=
  ⟨rfl, by decide,
    (claimC8 eqClassifier zeroScore zeroScore zeroVis { includeGMSD := true }
      imgTall1 imgTall2 rfl (by decide) rfl).1⟩

/-- Witness for claim C9: swapping two key-distinct clusters leaves the
fingerprint unchanged. -/
theorem claimC9_witness :
    ([clusterB, clusterA].Perm [clusterA, clusterB] ∧
      ([clusterA, clusterB].map ckey).Nodup) ∧
    computeFingerprint 1 8 8 (sortClusters [clusterB, clusterA]) =
      computeFingerprint 1 8 8 (sortClusters [clusterA, clusterB]) :=
  ⟨⟨by decide, by decide⟩,
    claimC9.1 1 8 8 [clusterA, clusterB] [clusterB, clusterA] (by decide) (by decide)⟩

/-- Witness for claim C10: the red-block comparison with color-blindness
checking enabled. -/
theorem claimC10_witness :
    (compare eqClassifier zeroScore zeroScore zeroVis c10opts imgBlack imgRedBlock =
        some c10result ∧
      c10result.diffClusters = some [c10cluster] ∧ c10cluster ∈ [c10cluster]) ∧
    (c10opts.checkColorBlindness = true →
      ∃ imp : ColorBlindnessImpact,
        c10cluster.accessibilityMetadata = some (AccessibilityMetadata.mk (some imp)) ∧
        0 ≤ imp.visibilityScore ∧ imp.visibilityScore ≤ 1) :=
  ⟨⟨by decide, by decide, by decide⟩,
    (claimC10 eqClassifier zeroScore zeroScore zeroVis c10opts imgBlack imgRedBlock
      c10result [c10cluster] c10cluster (by decide) (by decide) (by decide)).1⟩

end Honeydiff

namespace Honeydiff

/-- A 2×5 solid block of diff pixels at the origin: 10 pixels, bounding box
origin (0, 0), centroid (1/2, 2). -/
def tieA : DiffCluster :=
  { pixelCount := 10
    centerOfMass := (qdiv 1 2, 2)
    avgIntensity := 10
    boundingBox := BoundingBox.mk 0 0 2 5
    accessibilityMetadata := none }

/-- A 10-pixel anti-diagonal staircase from (0, 9) to (9, 0): same pixel
count and bounding-box origin as `tieA` (the two components are disjoint and
never 8-adjacent), but centroid (9/2, 9/2). -/
def tieB : DiffCluster :=
  { pixelCount := 10
    centerOfMass := (qdiv 9 2, qdiv 9 2)
    avgIntensity := 20
    boundingBox := BoundingBox.mk 0 0 10 10
    accessibilityMetadata := none }

/-- Claim C9, counterexample: two distinct clusters tie on the engine's full
sort key, and the fingerprint computed from the sorted cluster list then
depends on the order the clusters were produced in — the unrestricted
order-invariance claim is false. -/
theorem claimC9_counterexample :
    [tieB, tieA].Perm [tieA, tieB] ∧ ckey tieA = ckey tieB ∧ tieA ≠ tieB ∧
    computeFingerprint 1 16 16 (sortClusters [tieB, tieA]) ≠
      computeFingerprint 1 16 16 (sortClusters [tieA, tieB]) :=
  ⟨by decide, by decide, by decide, by decide⟩

end Honeydiff
